import Mathlib

/-!
Verification of the lambeq `WebParser` batch client
(`lambeq/ccg2discocat/web_parser.py` together with the type-check helpers
of `lambeq/core/utils.py`).

The Python code is shallowly embedded:

* dynamically typed batch inputs become the inductive type `PyObj`;
* `str.split()` / `' '.join` (Python builtins) are implemented
  character-for-character as `pySplit` / `pyJoin`;
* `urllib.parse.urlencode({'sentence': s})` is implemented as
  `urlencodeQuery` (UTF-8 percent-encoding with `quote_plus` semantics);
* the network (`urllib.request.urlopen` + `json.load`) and the collaborator
  `CCGTree.from_json` live outside the given sources, so they are parameters:
  `net : String → FetchResult δ` maps a request URL to the outcome of the
  `try` block body (decoded JSON data, an `HTTPError` with a status code, or
  any other exception), and `from_json : δ → τ` builds a tree from data;
* exceptions become the `Except` monad with error type `ParseErr`;
* the run additionally records, in order, the normalized sentences for
  which a request was issued (`RunResult.requested`), so that statements
  about "no network call is made" are expressible.
-/

/-- A dynamically typed Python value, as far as the type checks of
`lambeq/core/utils.py` can distinguish them: a `str`, a `list`, or
anything else. -/
inductive PyObj where
  | pyStr (s : String)
  | pyList (items : List PyObj)
  | pyOther

/-- The elements of a Python list (`[]` for non-lists; only applied to
values that passed an `isinstance(·, list)` check). -/
def PyObj.items : PyObj → List PyObj
  | .pyList xs => xs
  | _ => []

/-- `str(s)` for a value that is already a `str` (only applied after the
type check has established this, so the default is never reached). -/
def PyObj.asStr : PyObj → String
  | .pyStr s => s
  | _ => ""

/-- `lambeq.core.utils.tokenised_sentence_type_check`:
`isinstance(sentence, list) and all(isinstance(token, str) for token in sentence)`. -/
def tokenised_sentence_type_check : PyObj → Bool
  | .pyList items => items.all fun t => match t with | .pyStr _ => true | _ => false
  | _ => false

/-- `lambeq.core.utils.untokenised_batch_type_check`:
`isinstance(sentence, list) and all(isinstance(token, str) for token in sentence)`. -/
def untokenised_batch_type_check : PyObj → Bool
  | .pyList items => items.all fun t => match t with | .pyStr _ => true | _ => false
  | _ => false

/-- `lambeq.core.utils.tokenised_batch_type_check`:
`isinstance(batch, list) and all(tokenised_sentence_type_check(s) for s in batch)`. -/
def tokenised_batch_type_check : PyObj → Bool
  | .pyList items => items.all tokenised_sentence_type_check
  | _ => false

/-- The characters Python's `str.split()` (no argument) splits on. -/
def isPySpace (c : Char) : Bool :=
  c = ' ' || c = '\t' || c = '\n' || c = '\x0b' || c = '\x0c' || c = '\r'

/-- Worker for `str.split()`: `cur` is the reversed current word. -/
def pyWordsAux (cur : List Char) : List Char → List (List Char)
  | [] => if cur.isEmpty then [] else [cur.reverse]
  | c :: cs =>
    if isPySpace c then
      if cur.isEmpty then pyWordsAux [] cs
      else cur.reverse :: pyWordsAux [] cs
    else pyWordsAux (c :: cur) cs

/-- Python `s.split()`: maximal runs of non-whitespace characters, in order;
leading/trailing whitespace ignored, never yields empty strings. -/
def pySplit (s : String) : List String :=
  (pyWordsAux [] s.data).map fun w => ⟨w⟩

/-- `' '.join` at the character level. -/
def joinSpace : List (List Char) → List Char
  | [] => []
  | [w] => w
  | w :: ws => w ++ ' ' :: joinSpace ws

/-- Python `' '.join(ts)`. -/
def pyJoin (ts : List String) : String :=
  ⟨joinSpace (ts.map String.data)⟩

/-- The exceptions `WebParser.sentences2trees` can raise:
`ValueError(msg)`, `WebParseError(sentence, error_code)`, or the re-raised
underlying exception of the second `except` clause. -/
inductive ParseErr where
  | valueError (msg : String)
  | webParseError (sentence : String) (error_code : Nat)
  | raised (msg : String)
  deriving DecidableEq

/-- Outcome of the `try` body `urlopen(url)` + `json.load(f)` for one URL:
decoded data, an `HTTPError` carrying a status code, or any other
exception. -/
inductive FetchResult (δ : Type) where
  | ok (data : δ)
  | httpError (code : Nat)
  | exn (msg : String)
  deriving DecidableEq

/-- The message of the `ValueError` raised when `tokenised=True` but the
batch is not a `list[list[str]]`. -/
def typeErrMsgTok : String :=
  "`tokenised` set to `True`, but variable `sentences` does not have type `list[list[str]]`."

/-- The message of the `ValueError` raised when `tokenised=False` but the
batch is not a `list[str]`. -/
def typeErrMsgUntok : String :=
  "`tokenised` set to `False`, but variable `sentences` does not have type `list[str]`."

/-- The message of the `ValueError` raised for a blank sentence at index `i`. -/
def blankMsg (i : Nat) : String :=
  "Sentence at index " ++ toString i ++ " is blank."

/-- The type-check-and-normalize prefix of `sentences2trees`: the
`if tokenised: ... else: ...` block that rebinds `sentences` to a list of
plain strings (`' '.join(sentence)` per tokenised sentence, respectively
`' '.join(sentence.split())` per plain string). -/
def normalizeBatch (tokenised : Bool) (sentences : PyObj) : Except ParseErr (List String) :=
  if tokenised then
    if !tokenised_batch_type_check sentences then
      .error (.valueError typeErrMsgTok)
    else
      .ok (sentences.items.map fun sentence => pyJoin (sentence.items.map PyObj.asStr))
  else
    if !untokenised_batch_type_check sentences then
      .error (.valueError typeErrMsgUntok)
    else
      .ok ((sentences.items.map PyObj.asStr).map fun sentence => pyJoin (pySplit sentence))

/-- The `for i, sentence in enumerate(sentences)` loop that collects
`empty_indices` (when suppressing) or raises `ValueError` at the first
blank sentence (when not); `i` starts from the given offset. -/
def emptyCheck (suppress_exceptions : Bool) : Nat → List String → Except ParseErr (List Nat)
  | _, [] => .ok []
  | i, sentence :: rest =>
    if sentence = "" then
      if suppress_exceptions then
        (emptyCheck suppress_exceptions (i + 1) rest).map fun idxs => i :: idxs
      else
        .error (.valueError (blankMsg i))
    else
      emptyCheck suppress_exceptions (i + 1) rest

/-- Hexadecimal digit characters (upper case, as `urllib` produces). -/
def hexDigit (n : Nat) : Char :=
  (['0', '1', '2', '3', '4', '5', '6', '7', '8', '9',
    'A', 'B', 'C', 'D', 'E', 'F']).getD n '0'

/-- The UTF-8 encoding of a character, as a list of byte values. -/
def utf8Bytes (c : Char) : List Nat :=
  let n := c.toNat
  if n < 0x80 then [n]
  else if n < 0x800 then
    [0xC0 ||| (n >>> 6), 0x80 ||| (n &&& 0x3F)]
  else if n < 0x10000 then
    [0xE0 ||| (n >>> 12), 0x80 ||| ((n >>> 6) &&& 0x3F), 0x80 ||| (n &&& 0x3F)]
  else
    [0xF0 ||| (n >>> 18), 0x80 ||| ((n >>> 12) &&& 0x3F),
     0x80 ||| ((n >>> 6) &&& 0x3F), 0x80 ||| (n &&& 0x3F)]

/-- `%XX` percent-encoding of one byte. -/
def percentByte (b : Nat) : String :=
  ⟨['%', hexDigit (b / 16), hexDigit (b % 16)]⟩

/-- Python `urllib.parse.quote_plus`: ASCII alphanumerics and `_.-~` kept,
space becomes `+`, every other character percent-encoded bytewise. -/
def quotePlus (s : String) : String :=
  String.join (s.data.map fun c =>
    if c = ' ' then "+"
    else if c.isAlphanum || c = '_' || c = '.' || c = '-' || c = '~' then ⟨[c]⟩
    else String.join ((utf8Bytes c).map percentByte))

/-- `urlencode({'sentence': sent})`. -/
def urlencodeQuery (sent : String) : String :=
  "sentence=" ++ quotePlus sent

/-- `f'{self.service_url}?{params}'`. -/
def requestUrl (service_url sent : String) : String :=
  service_url ++ "?" ++ urlencodeQuery sent

instance {ε α : Type} [DecidableEq ε] [DecidableEq α] : DecidableEq (Except ε α) := fun a b =>
  match a, b with
  | .error x, .error y => decidable_of_iff (x = y) (by simp)
  | .error _, .ok _ => isFalse (by simp)
  | .ok _, .error _ => isFalse (by simp)
  | .ok x, .ok y => decidable_of_iff (x = y) (by simp)

/-- The observable outcome of one `sentences2trees` call: the normalized
sentences for which a request was issued (in order), and either the
returned list of optional trees or the exception raised. -/
structure RunResult (τ : Type) where
  requested : List String
  outcome : Except ParseErr (List (Option τ))
  deriving DecidableEq

/-- The `for sent in sentences:` request loop. The parameter `sentence` is
the (stale) value left in the variable `sentence` by the earlier
`enumerate` loop: the source raises `WebParseError(str(sentence), e.code)`,
not `WebParseError(sent, e.code)`. -/
def requestLoop {δ τ : Type} (net : String → FetchResult δ) (from_json : δ → τ)
    (service_url : String) (suppress_exceptions : Bool) (sentence : String) :
    List String → RunResult τ
  | [] => ⟨[], .ok []⟩
  | sent :: rest =>
    match net (requestUrl service_url sent) with
    | .ok data =>
      let r := requestLoop net from_json service_url suppress_exceptions sentence rest
      ⟨sent :: r.requested, r.outcome.map fun trees => some (from_json data) :: trees⟩
    | .httpError code =>
      if suppress_exceptions then
        let r := requestLoop net from_json service_url suppress_exceptions sentence rest
        ⟨sent :: r.requested, r.outcome.map fun trees => none :: trees⟩
      else
        ⟨[sent], .error (.webParseError sentence code)⟩
    | .exn msg =>
      if suppress_exceptions then
        let r := requestLoop net from_json service_url suppress_exceptions sentence rest
        ⟨sent :: r.requested, r.outcome.map fun trees => none :: trees⟩
      else
        ⟨[sent], .error (.raised msg)⟩

/-- Python `list.insert(i, x)` (appends when `i ≥ len`). -/
def pyInsert {α : Type} (i : Nat) (x : α) (xs : List α) : List α :=
  xs.take i ++ x :: xs.drop i

/-- The client: holds only the configured endpoint. -/
structure WebParser where
  service_url : String

/-- `WebParser.sentences2trees`, with the network and `CCGTree.from_json`
as parameters. Mirrors the source: type check + normalization, the
empty-sentence scan, `del sentences[i] for i in reversed(empty_indices)`,
the request loop (threading the stale `sentence` variable,
`normalized.getLast?`), and finally `trees.insert(i, None)` for each
recorded empty index. -/
def WebParser.sentences2trees {δ τ : Type} (self : WebParser)
    (net : String → FetchResult δ) (from_json : δ → τ)
    (sentences : PyObj) (suppress_exceptions tokenised : Bool) : RunResult τ :=
  match normalizeBatch tokenised sentences with
  | .error e => ⟨[], .error e⟩
  | .ok normalized =>
    match emptyCheck suppress_exceptions 0 normalized with
    | .error e => ⟨[], .error e⟩
    | .ok empty_indices =>
      let remaining := empty_indices.reverse.foldl (fun acc i => acc.eraseIdx i) normalized
      let sentence := normalized.getLast?.getD ""
      let r := requestLoop net from_json self.service_url suppress_exceptions sentence remaining
      ⟨r.requested,
       r.outcome.map fun trees => empty_indices.foldl (fun acc i => pyInsert i none acc) trees⟩

/-- The result the loop body computes for one sentence when exceptions are
suppressed: `some (from_json data)` on success, `None` on any failure. -/
def soloResult {δ τ : Type} (net : String → FetchResult δ) (from_json : δ → τ)
    (service_url : String) (sent : String) : Option τ :=
  match net (requestUrl service_url sent) with
  | .ok data => some (from_json data)
  | _ => none

/-- Whether the fetch of one sentence succeeds. -/
def fetchOk {δ : Type} (net : String → FetchResult δ) (service_url sent : String) : Bool :=
  match net (requestUrl service_url sent) with
  | .ok _ => true
  | _ => false

/-- The positions (counted from the offset) holding empty strings. -/
def blankIndicesFrom (k : Nat) : List String → List Nat
  | [] => []
  | s :: rest =>
    if s = "" then k :: blankIndicesFrom (k + 1) rest
    else blankIndicesFrom (k + 1) rest

/-- The position of the first empty string, if any. -/
def firstBlankIdx : List String → Option Nat
  | [] => none
  | s :: rest => if s = "" then some 0 else (firstBlankIdx rest).map (· + 1)

/-- The error reported when the fetch of `sent` fails and exceptions are
not suppressed; `sentence` is the stale loop variable threaded by
`requestLoop`.  (The `.ok` branch is never reached under `fetchOk = false`.) -/
def failureError {δ : Type} (net : String → FetchResult δ)
    (service_url sentence sent : String) : ParseErr :=
  match net (requestUrl service_url sent) with
  | .ok _ => .raised ""
  | .httpError code => .webParseError sentence code
  | .exn msg => .raised msg

theorem emptyCheck_true (k : Nat) (ns : List String) :
    emptyCheck true k ns = .ok (blankIndicesFrom k ns) := by
  induction ns generalizing k with
  | nil => rfl
  | cons s rest ih =>
    by_cases hs : s = "" <;> simp [emptyCheck, blankIndicesFrom, hs, ih, Except.map]

theorem emptyCheck_false (k : Nat) (ns : List String) :
    emptyCheck false k ns =
      match firstBlankIdx ns with
      | none => .ok []
      | some j => .error (.valueError (blankMsg (k + j))) := by
  induction ns generalizing k with
  | nil => rfl
  | cons s rest ih =>
    by_cases hs : s = ""
    · simp [emptyCheck, firstBlankIdx, hs]
    · simp only [emptyCheck, firstBlankIdx, hs, if_false, if_neg, ite_false]
      rw [ih (k + 1)]
      cases hfb : firstBlankIdx rest with
      | none => simp
      | some j =>
        have hk : k + 1 + j = k + (j + 1) := by omega
        simp [Option.map, hk]

theorem firstBlankIdx_none {ns : List String} :
    firstBlankIdx ns = none ↔ ∀ s ∈ ns, s ≠ "" := by
  induction ns with
  | nil => simp [firstBlankIdx]
  | cons s rest ih =>
    by_cases hs : s = "" <;> simp [firstBlankIdx, hs, ih]

theorem eraseIdx_len_append {α : Type} (pre : List α) (x : α) (l : List α) :
    (pre ++ x :: l).eraseIdx pre.length = pre ++ l := by
  induction pre with
  | nil => rfl
  | cons a pre ih => simp [List.eraseIdx_cons_succ, ih]

theorem blankIndicesFrom_cons_blank (k : Nat) (rest : List String) :
    blankIndicesFrom k ("" :: rest) = k :: blankIndicesFrom (k + 1) rest := by
  simp [blankIndicesFrom]

theorem blankIndicesFrom_cons_nonblank {s : String} (k : Nat) (rest : List String)
    (hs : s ≠ "") :
    blankIndicesFrom k (s :: rest) = blankIndicesFrom (k + 1) rest := by
  simp [blankIndicesFrom, hs]

theorem eraseFold_filter (ns : List String) : ∀ pre : List String,
    (blankIndicesFrom pre.length ns).reverse.foldl (fun acc i => acc.eraseIdx i) (pre ++ ns)
      = pre ++ ns.filter (fun s => !(s == "")) := by
  induction ns with
  | nil => intro pre; simp [blankIndicesFrom]
  | cons s rest ih =>
    intro pre
    by_cases hs : s = ""
    · subst hs
      have h2 := ih (pre ++ [""])
      simp only [List.length_append, List.length_cons, List.length_nil, Nat.zero_add,
        List.append_assoc, List.cons_append, List.nil_append] at h2
      rw [blankIndicesFrom_cons_blank]
      simp only [List.reverse_cons, List.foldl_append, List.foldl_cons, List.foldl_nil]
      rw [h2, eraseIdx_len_append]
      simp [List.filter_cons]
    · have h2 := ih (pre ++ [s])
      simp only [List.length_append, List.length_cons, List.length_nil, Nat.zero_add,
        List.append_assoc, List.cons_append, List.nil_append] at h2
      rw [blankIndicesFrom_cons_nonblank _ _ hs, h2]
      simp [List.filter_cons, hs]

theorem pyInsert_len_append {α : Type} (pre : List α) (x : α) (l : List α) :
    pyInsert pre.length x (pre ++ l) = pre ++ x :: l := by
  simp [pyInsert, List.take_left, List.drop_left]

theorem insertFold_realign {τ : Type} (ns : List String) :
    ∀ pre : List (Option τ), ∀ g : String → Option τ,
    (blankIndicesFrom pre.length ns).foldl (fun acc i => pyInsert i none acc)
        (pre ++ (ns.filter (fun s => !(s == ""))).map g)
      = pre ++ ns.map (fun s => if s = "" then none else g s) := by
  induction ns with
  | nil => intro pre g; simp [blankIndicesFrom]
  | cons s rest ih =>
    intro pre g
    by_cases hs : s = ""
    · subst hs
      rw [blankIndicesFrom_cons_blank]
      have hfc : List.filter (fun s => !(s == "")) ("" :: rest)
          = List.filter (fun s => !(s == "")) rest := by
        simp [List.filter_cons]
      rw [hfc]
      simp only [List.foldl_cons]
      rw [pyInsert_len_append]
      have h2 := ih (pre ++ [none]) g
      simp only [List.length_append, List.length_cons, List.length_nil, Nat.zero_add,
        List.append_assoc, List.cons_append, List.nil_append] at h2
      rw [h2]
      simp
    · rw [blankIndicesFrom_cons_nonblank _ _ hs]
      have hb : ((s == "" : Bool)) = false := by simp [hs]
      have hfc : List.filter (fun s => !(s == "")) (s :: rest)
          = s :: List.filter (fun s => !(s == "")) rest := by
        simp [List.filter_cons, hb]
      rw [hfc]
      have h2 := ih (pre ++ [g s]) g
      simp only [List.length_append, List.length_cons, List.length_nil, Nat.zero_add,
        List.append_assoc, List.cons_append, List.nil_append] at h2
      simp only [List.map_cons, List.cons_append]
      rw [show pre ++ g s :: List.map g (List.filter (fun s => !(s == "")) rest)
            = pre ++ [g s] ++ List.map g (List.filter (fun s => !(s == "")) rest) by simp]
      rw [show pre ++ [g s] ++ List.map g (List.filter (fun s => !(s == "")) rest)
            = pre ++ (g s :: List.map g (List.filter (fun s => !(s == "")) rest)) by simp]
      rw [h2]
      simp [hs]

theorem requestLoop_suppress {δ τ : Type} (net : String → FetchResult δ) (fj : δ → τ)
    (su stale : String) (l : List String) :
    requestLoop net fj su true stale l = ⟨l, .ok (l.map (soloResult net fj su))⟩ := by
  induction l with
  | nil => rfl
  | cons s rest ih =>
    cases hnet : net (requestUrl su s) with
    | ok d => simp [requestLoop, hnet, ih, soloResult, Except.map]
    | httpError c => simp [requestLoop, hnet, ih, soloResult, Except.map]
    | exn m => simp [requestLoop, hnet, ih, soloResult, Except.map]

theorem requestLoop_ok_length {δ τ : Type} (net : String → FetchResult δ) (fj : δ → τ)
    (su stale : String) (sup : Bool) (l : List String) :
    ∀ ts, (requestLoop net fj su sup stale l).outcome = .ok ts → ts.length = l.length := by
  induction l with
  | nil =>
    intro ts h
    simp only [requestLoop] at h
    cases h
    rfl
  | cons s rest ih =>
    intro ts h
    cases hnet : net (requestUrl su s) with
    | ok d =>
      simp only [requestLoop, hnet] at h
      cases hrec : (requestLoop net fj su sup stale rest).outcome with
      | error e => rw [hrec] at h; cases h
      | ok ts' =>
        rw [hrec] at h
        simp only [Except.map, Except.ok.injEq] at h
        subst h
        simp [ih ts' hrec]
    | httpError c =>
      cases sup with
      | true =>
        simp only [requestLoop, hnet, if_true] at h
        cases hrec : (requestLoop net fj su true stale rest).outcome with
        | error e => rw [hrec] at h; simp [Except.map] at h
        | ok ts' =>
          rw [hrec] at h
          simp only [Except.map, Except.ok.injEq] at h
          subst h
          simp [ih ts' hrec]
      | false => simp only [requestLoop, hnet] at h; cases h
    | exn m =>
      cases sup with
      | true =>
        simp only [requestLoop, hnet, if_true] at h
        cases hrec : (requestLoop net fj su true stale rest).outcome with
        | error e => rw [hrec] at h; simp [Except.map] at h
        | ok ts' =>
          rw [hrec] at h
          simp only [Except.map, Except.ok.injEq] at h
          subst h
          simp [ih ts' hrec]
      | false => simp only [requestLoop, hnet] at h; cases h

theorem requestLoop_requested_mem {δ τ : Type} (net : String → FetchResult δ) (fj : δ → τ)
    (su stale : String) (sup : Bool) (l : List String) :
    ∀ s ∈ (requestLoop net fj su sup stale l).requested, s ∈ l := by
  induction l with
  | nil => intro s h; simp [requestLoop] at h
  | cons x rest ih =>
    intro s h
    cases hnet : net (requestUrl su x) with
    | ok d =>
      simp only [requestLoop, hnet, List.mem_cons] at h
      rcases h with rfl | h
      · simp
      · exact List.mem_cons_of_mem _ (ih s h)
    | httpError c =>
      cases sup with
      | true =>
        simp only [requestLoop, hnet, if_true, List.mem_cons] at h
        rcases h with rfl | h
        · simp
        · exact List.mem_cons_of_mem _ (ih s h)
      | false =>
        simp [requestLoop, hnet] at h
        simp [h]
    | exn m =>
      cases sup with
      | true =>
        simp only [requestLoop, hnet, if_true, List.mem_cons] at h
        rcases h with rfl | h
        · simp
        · exact List.mem_cons_of_mem _ (ih s h)
      | false =>
        simp [requestLoop, hnet] at h
        simp [h]

theorem requestLoop_all_ok {δ τ : Type} (net : String → FetchResult δ) (fj : δ → τ)
    (su stale : String) (l : List String) (h : ∀ s ∈ l, fetchOk net su s = true) :
    requestLoop net fj su false stale l = ⟨l, .ok (l.map (soloResult net fj su))⟩ := by
  induction l with
  | nil => rfl
  | cons s rest ih =>
    have hs := h s (by simp)
    cases hnet : net (requestUrl su s) with
    | ok d =>
      have ih2 := ih fun x hx => h x (List.mem_cons_of_mem _ hx)
      simp [requestLoop, hnet, ih2, soloResult, Except.map]
    | httpError c => simp [fetchOk, hnet] at hs
    | exn m => simp [fetchOk, hnet] at hs

theorem requestLoop_first_fail {δ τ : Type} (net : String → FetchResult δ) (fj : δ → τ)
    (su stale : String) (pre : List String) (f : String) (rest : List String)
    (hpre : ∀ s ∈ pre, fetchOk net su s = true) (hf : fetchOk net su f = false) :
    requestLoop net fj su false stale (pre ++ f :: rest)
      = ⟨pre ++ [f], .error (failureError net su stale f)⟩ := by
  induction pre with
  | nil =>
    cases hnet : net (requestUrl su f) with
    | ok d => simp [fetchOk, hnet] at hf
    | httpError c => simp [requestLoop, hnet, failureError]
    | exn m => simp [requestLoop, hnet, failureError]
  | cons a pre ih =>
    have ha := hpre a (by simp)
    cases hnet : net (requestUrl su a) with
    | ok d =>
      have ih2 := ih fun x hx => hpre x (List.mem_cons_of_mem _ hx)
      simp [requestLoop, hnet, ih2, Except.map]
    | httpError c => simp [fetchOk, hnet] at ha
    | exn m => simp [fetchOk, hnet] at ha

theorem normalizeBatch_length {tok : Bool} {b : PyObj} {ns : List String}
    (h : normalizeBatch tok b = .ok ns) : ns.length = b.items.length := by
  cases tok with
  | true =>
    by_cases hc : tokenised_batch_type_check b
    · simp only [normalizeBatch, hc, Bool.not_true, if_true, Bool.false_eq_true, if_false,
        ite_false, Except.ok.injEq] at h
      subst h
      simp
    · simp [normalizeBatch, hc] at h
  | false =>
    by_cases hc : untokenised_batch_type_check b
    · simp only [normalizeBatch, hc, Bool.not_true, Bool.false_eq_true, if_false,
        ite_false, Except.ok.injEq] at h
      subst h
      simp
    · simp [normalizeBatch, hc] at h

theorem sentences2trees_normerr {δ τ : Type} (self : WebParser)
    (net : String → FetchResult δ) (fj : δ → τ) (sentences : PyObj)
    (sup tok : Bool) (e : ParseErr) (hn : normalizeBatch tok sentences = .error e) :
    self.sentences2trees net fj sentences sup tok = ⟨[], .error e⟩ := by
  unfold WebParser.sentences2trees
  rw [hn]

theorem sentences2trees_suppress {δ τ : Type} (self : WebParser)
    (net : String → FetchResult δ) (fj : δ → τ) (sentences : PyObj)
    (tok : Bool) (ns : List String) (hn : normalizeBatch tok sentences = .ok ns) :
    self.sentences2trees net fj sentences true tok
      = ⟨ns.filter (fun s => !(s == "")),
         .ok (ns.map fun s =>
           if s = "" then none else soloResult net fj self.service_url s)⟩ := by
  unfold WebParser.sentences2trees
  rw [hn]
  dsimp only
  rw [emptyCheck_true]
  have hdel := eraseFold_filter ns ([] : List String)
  simp only [List.nil_append, List.length_nil] at hdel
  have hins := insertFold_realign ns ([] : List (Option τ)) (soloResult net fj self.service_url)
  simp only [List.nil_append, List.length_nil] at hins
  simp only [hdel, requestLoop_suppress, Except.map, hins]

theorem sentences2trees_blank {δ τ : Type} (self : WebParser)
    (net : String → FetchResult δ) (fj : δ → τ) (sentences : PyObj)
    (tok : Bool) (ns : List String) (j : Nat)
    (hn : normalizeBatch tok sentences = .ok ns) (hj : firstBlankIdx ns = some j) :
    self.sentences2trees net fj sentences false tok
      = ⟨[], .error (.valueError (blankMsg j))⟩ := by
  unfold WebParser.sentences2trees
  rw [hn]
  dsimp only
  rw [emptyCheck_false, hj]
  simp

theorem sentences2trees_noblank {δ τ : Type} (self : WebParser)
    (net : String → FetchResult δ) (fj : δ → τ) (sentences : PyObj)
    (tok : Bool) (ns : List String)
    (hn : normalizeBatch tok sentences = .ok ns) (hb : firstBlankIdx ns = none) :
    self.sentences2trees net fj sentences false tok
      = requestLoop net fj self.service_url false (ns.getLast?.getD "") ns := by
  unfold WebParser.sentences2trees
  rw [hn]
  dsimp only
  rw [emptyCheck_false, hb]
  simp only [List.reverse_nil, List.foldl_nil]
  generalize requestLoop net fj self.service_url false (ns.getLast?.getD "") ns = r
  obtain ⟨req, out⟩ := r
  cases out <;> rfl

/-- No two adjacent whitespace characters. -/
def noWsPair : List Char → Bool
  | a :: b :: rest => (!(isPySpace a && isPySpace b)) && noWsPair (b :: rest)
  | _ => true

/-- The spec's "whitespace-collapsed" shape: no leading or trailing
whitespace character and no run of more than one whitespace character. -/
def wsCollapsedChars (cs : List Char) : Bool :=
  (cs.head?.all fun c => !isPySpace c) &&
  ((cs.getLast?.all fun c => !isPySpace c) && noWsPair cs)

/-- `wsCollapsedChars` on a string's characters. -/
def wsCollapsed (s : String) : Bool := wsCollapsedChars s.data

theorem pyWordsAux_good (cs : List Char) : ∀ cur, (∀ c ∈ cur, isPySpace c = false) →
    ∀ w ∈ pyWordsAux cur cs, w ≠ [] ∧ ∀ c ∈ w, isPySpace c = false := by
  induction cs with
  | nil =>
    intro cur hcur w hw
    by_cases hemp : cur.isEmpty
    · simp [pyWordsAux, hemp] at hw
    · simp only [pyWordsAux, hemp, Bool.false_eq_true, if_false, ite_false,
        List.mem_singleton] at hw
      subst hw
      constructor
      · simp [List.isEmpty_iff] at hemp
        simpa using hemp
      · intro c hc
        exact hcur c (List.mem_reverse.mp hc)
  | cons c cs ih =>
    intro cur hcur w hw
    by_cases hsp : isPySpace c
    · by_cases hemp : cur.isEmpty
      · simp only [pyWordsAux, hsp, if_true, hemp, ite_true] at hw
        exact ih [] (by simp) w hw
      · simp only [pyWordsAux, hsp, if_true, hemp, Bool.false_eq_true, if_false,
          ite_true, ite_false, List.mem_cons] at hw
        rcases hw with rfl | hw
        · constructor
          · simp [List.isEmpty_iff] at hemp
            simpa using hemp
          · intro x hx
            exact hcur x (List.mem_reverse.mp hx)
        · exact ih [] (by simp) w hw
    · simp only [pyWordsAux, hsp, Bool.false_eq_true, if_false, ite_false] at hw
      refine ih (c :: cur) ?_ w hw
      intro x hx
      rcases List.mem_cons.mp hx with rfl | hx
      · simpa using hsp
      · exact hcur x hx

theorem noWsPair_wsfree (cs : List Char) (h : ∀ c ∈ cs, isPySpace c = false) :
    noWsPair cs = true := by
  induction cs with
  | nil => rfl
  | cons a rest ih =>
    cases rest with
    | nil => rfl
    | cons b rest' =>
      have hrec := ih fun c hc => h c (List.mem_cons_of_mem _ hc)
      simp [noWsPair, h a (by simp), hrec]

theorem noWsPair_append (xs : List Char) : ∀ ys, noWsPair xs = true → noWsPair ys = true →
    (∀ a b, xs.getLast? = some a → ys.head? = some b → (isPySpace a && isPySpace b) = false) →
    noWsPair (xs ++ ys) = true := by
  induction xs with
  | nil => intro ys _ hy _; simpa using hy
  | cons a xs ih =>
    intro ys hx hy hb
    cases xs with
    | nil =>
      cases ys with
      | nil => rfl
      | cons b ys' =>
        simp only [List.cons_append, List.nil_append, noWsPair]
        simp [hb a b rfl rfl, hy]
    | cons a' xs' =>
      simp only [noWsPair, Bool.and_eq_true] at hx
      have hrec := ih ys hx.2 hy ?_
      · simp only [List.cons_append, noWsPair]
        simp only [List.cons_append] at hrec
        simp [hx.1, hrec]
      · intro x y hl hh
        refine hb x y ?_ hh
        rw [List.getLast?_cons_cons]
        exact hl

theorem joinSpace_ne_nil (w : List Char) (ws : List (List Char)) (hw : w ≠ []) :
    joinSpace (w :: ws) ≠ [] := by
  cases ws with
  | nil => simpa [joinSpace]
  | cons w' ws' => simp [joinSpace]

theorem joinSpace_head? (w : List Char) (ws : List (List Char)) (hw : w ≠ []) :
    (joinSpace (w :: ws)).head? = w.head? := by
  cases ws with
  | nil => rfl
  | cons w' ws' =>
    cases w with
    | nil => exact absurd rfl hw
    | cons c w'' => simp [joinSpace]

theorem ne_nil_getLast?_some {α : Type} (l : List α) (h : l ≠ []) :
    ∃ a, l.getLast? = some a := by
  induction l with
  | nil => exact absurd rfl h
  | cons x l' ih =>
    cases l' with
    | nil => exact ⟨x, rfl⟩
    | cons y l'' =>
      obtain ⟨a, ha⟩ := ih (by simp)
      exact ⟨a, by rw [List.getLast?_cons_cons]; exact ha⟩

theorem getLast?_cons_of_ne_nil {α : Type} (x : α) (l : List α) (h : l ≠ []) :
    (x :: l).getLast? = l.getLast? := by
  cases l with
  | nil => exact absurd rfl h
  | cons d l' => exact List.getLast?_cons_cons

theorem wsCollapsed_joinSpace : ∀ ws : List (List Char),
    (∀ w ∈ ws, w ≠ [] ∧ ∀ c ∈ w, isPySpace c = false) →
    wsCollapsedChars (joinSpace ws) = true := by
  intro ws
  induction ws with
  | nil => intro h; rfl
  | cons w ws ih =>
    intro h
    obtain ⟨hne, hfree⟩ := h w (by simp)
    cases ws with
    | nil =>
      show wsCollapsedChars (joinSpace [w]) = true
      have hw1 : joinSpace [w] = w := rfl
      rw [hw1, wsCollapsedChars, Bool.and_eq_true, Bool.and_eq_true]
      refine ⟨?_, ?_, noWsPair_wsfree w hfree⟩
      · cases w with
        | nil => exact absurd rfl hne
        | cons c w' => simp [hfree c (by simp)]
      · cases hl : w.getLast? with
        | none => rfl
        | some a => simp [hfree a (List.mem_of_getLast?_eq_some hl)]
    | cons w' ws' =>
      obtain ⟨hne', hfree'⟩ := h w' (by simp)
      have hrest := ih fun x hx => h x (List.mem_cons_of_mem _ hx)
      have hJne : joinSpace (w' :: ws') ≠ [] := joinSpace_ne_nil w' ws' hne'
      have hJhead : (joinSpace (w' :: ws')).head? = w'.head? := joinSpace_head? w' ws' hne'
      rw [wsCollapsedChars, Bool.and_eq_true, Bool.and_eq_true] at hrest
      obtain ⟨hrh, hrl, hrp⟩ := hrest
      have hun : joinSpace (w :: w' :: ws') = w ++ ' ' :: joinSpace (w' :: ws') := rfl
      rw [hun, wsCollapsedChars, Bool.and_eq_true, Bool.and_eq_true]
      refine ⟨?_, ?_, ?_⟩
      · cases w with
        | nil => exact absurd rfl hne
        | cons c w'' => simp [hfree c (by simp)]
      · obtain ⟨a, ha⟩ := ne_nil_getLast?_some (joinSpace (w' :: ws')) hJne
        rw [List.getLast?_append, getLast?_cons_of_ne_nil ' ' _ hJne, ha]
        rw [ha] at hrl
        simpa using hrl
      · refine noWsPair_append w (' ' :: joinSpace (w' :: ws')) (noWsPair_wsfree w hfree) ?_ ?_
        · cases hJd : joinSpace (w' :: ws') with
          | nil => exact absurd hJd hJne
          | cons d J' =>
            have hd : isPySpace d = false := by
              have hww : w'.head? = some d := by rw [← hJhead, hJd]; rfl
              cases w' with
              | nil => exact absurd rfl hne'
              | cons c' w'' =>
                have : c' = d := by simpa using hww
                subst this
                exact hfree' c' (by simp)
            rw [hJd] at hrp
            simp [noWsPair, hd, hrp]
        · intro a b hla hhb
          have hb' : b = ' ' := by simpa using hhb.symm
          subst hb'
          simp [hfree a (List.mem_of_getLast?_eq_some hla)]

theorem wsCollapsed_split_join (s : String) : wsCollapsed (pyJoin (pySplit s)) = true := by
  show wsCollapsedChars (joinSpace ((pyWordsAux [] s.data).map (fun w => (⟨w⟩ : String)) |>.map String.data)) = true
  rw [List.map_map]
  have hmm : ((fun w => (⟨w⟩ : String).data) : List Char → List Char) = fun w => w := by
    funext w
    rfl
  rw [show (String.data ∘ fun w => (⟨w⟩ : String)) = fun w => (⟨w⟩ : String).data from rfl, hmm]
  rw [List.map_id']
  exact wsCollapsed_joinSpace _ (pyWordsAux_good s.data [] (by simp))

theorem wsCollapsed_join_tokens (ts : List String)
    (h : ∀ t ∈ ts, t.data ≠ [] ∧ ∀ c ∈ t.data, isPySpace c = false) :
    wsCollapsed (pyJoin ts) = true := by
  show wsCollapsedChars (joinSpace (ts.map String.data)) = true
  refine wsCollapsed_joinSpace _ ?_
  intro w hw
  rw [List.mem_map] at hw
  obtain ⟨t, ht, rfl⟩ := hw
  exact h t ht

theorem normalizeBatch_mem_tok {b : PyObj} {ns : List String}
    (h : normalizeBatch true b = .ok ns) :
    ∀ s ∈ ns, ∃ o ∈ b.items, s = pyJoin (o.items.map PyObj.asStr) := by
  by_cases hc : tokenised_batch_type_check b
  · simp only [normalizeBatch, hc, Bool.not_true, Bool.false_eq_true, if_false, ite_false,
      if_true, ite_true, Except.ok.injEq] at h
    subst h
    intro s hs
    rw [List.mem_map] at hs
    obtain ⟨o, ho, rfl⟩ := hs
    exact ⟨o, ho, rfl⟩
  · simp [normalizeBatch, hc] at h

theorem normalizeBatch_mem_untok {b : PyObj} {ns : List String}
    (h : normalizeBatch false b = .ok ns) :
    ∀ s ∈ ns, ∃ s0, s = pyJoin (pySplit s0) := by
  by_cases hc : untokenised_batch_type_check b
  · simp only [normalizeBatch, hc, Bool.not_true, Bool.false_eq_true, if_false, ite_false,
      Except.ok.injEq] at h
    subst h
    intro s hs
    rw [List.mem_map] at hs
    obtain ⟨s0, hs0, rfl⟩ := hs
    exact ⟨s0, rfl⟩
  · simp [normalizeBatch, hc] at h

theorem tokenised_check_embed (tss : List (List String)) :
    tokenised_batch_type_check (.pyList (tss.map fun ts => .pyList (ts.map PyObj.pyStr))) = true := by
  rw [tokenised_batch_type_check, List.all_eq_true]
  intro o ho
  rw [List.mem_map] at ho
  obtain ⟨ts, hts, rfl⟩ := ho
  rw [tokenised_sentence_type_check, List.all_eq_true]
  intro t ht
  rw [List.mem_map] at ht
  obtain ⟨s, hst, rfl⟩ := ht
  rfl

theorem untokenised_check_embed (ss : List String) :
    untokenised_batch_type_check (.pyList (ss.map PyObj.pyStr)) = true := by
  rw [untokenised_batch_type_check, List.all_eq_true]
  intro t ht
  rw [List.mem_map] at ht
  obtain ⟨s, hst, rfl⟩ := ht
  rfl

theorem normalizeBatch_embed_tok (tss : List (List String)) :
    normalizeBatch true (.pyList (tss.map fun ts => .pyList (ts.map PyObj.pyStr)))
      = .ok (tss.map pyJoin) := by
  rw [normalizeBatch]
  rw [tokenised_check_embed]
  simp only [Bool.not_true, Bool.false_eq_true, if_false, ite_false, if_true, ite_true,
    PyObj.items, List.map_map, Except.ok.injEq]
  refine List.map_congr_left ?_
  intro ts hts
  simp only [Function.comp, PyObj.items, List.map_map]
  congr 1
  refine (List.map_congr_left ?_).trans (List.map_id _)
  intro s hs
  rfl

theorem normalizeBatch_embed_untok (ss : List String) :
    normalizeBatch false (.pyList (ss.map PyObj.pyStr))
      = .ok (ss.map fun s => pyJoin (pySplit s)) := by
  rw [normalizeBatch]
  rw [untokenised_check_embed]
  simp only [Bool.not_true, Bool.false_eq_true, if_false, ite_false, PyObj.items,
    List.map_map, Except.ok.injEq]
  refine List.map_congr_left ?_
  intro s hs
  rfl

/-- A store of Python objects: `heap` maps addresses to values, addresses
below `next` are allocated. -/
structure PyHeap where
  heap : Nat → PyObj
  next : Nat

/-- Allocate a fresh object, returning its address. -/
def PyHeap.alloc (st : PyHeap) (v : PyObj) : Nat × PyHeap :=
  (st.next, ⟨fun a => if a = st.next then v else st.heap a, st.next + 1⟩)

/-- Overwrite the object at an address (in-place list mutation). -/
def PyHeap.write (st : PyHeap) (a : Nat) (v : PyObj) : PyHeap :=
  ⟨fun b => if b = a then v else st.heap b, st.next⟩

/-- A Python `list[str]` value. -/
def strList (ss : List String) : PyObj := .pyList (ss.map PyObj.pyStr)

theorem PyHeap.alloc_heap_lt (st : PyHeap) (v : PyObj) (a : Nat) (h : a < st.next) :
    ((st.alloc v).2).heap a = st.heap a := by
  simp only [PyHeap.alloc]
  rw [if_neg (Nat.ne_of_lt h)]

theorem PyHeap.write_heap_ne (st : PyHeap) (b : Nat) (v : PyObj) (a : Nat) (h : a ≠ b) :
    (st.write b v).heap a = st.heap a := by
  simp only [PyHeap.write]
  rw [if_neg h]

/-- `WebParser.sentences2trees` with the heap made explicit, at the
granularity of Python object mutation: the caller's batch lives at
`sentencesAddr`; each list comprehension allocates a fresh list (the local
variable `sentences` is rebound to it), and the `del sentences[i]` loop
mutates only that fresh list.  The parser object is returned unchanged:
the method never assigns `self.service_url`. -/
def WebParser.sentences2treesSt {δ τ : Type} (self : WebParser)
    (net : String → FetchResult δ) (from_json : δ → τ)
    (st : PyHeap) (sentencesAddr : Nat) (suppress_exceptions tokenised : Bool) :
    PyHeap × WebParser × RunResult τ :=
  let batch := st.heap sentencesAddr
  match normalizeBatch tokenised batch with
  | .error e => (st, self, ⟨[], .error e⟩)
  | .ok normalized =>
    let st1 := if tokenised then st
      else (st.alloc (strList (batch.items.map PyObj.asStr))).2
    let fresh := st1.alloc (strList normalized)
    match emptyCheck suppress_exceptions 0 normalized with
    | .error e => (fresh.2, self, ⟨[], .error e⟩)
    | .ok empty_indices =>
      let remaining := empty_indices.reverse.foldl (fun acc i => acc.eraseIdx i) normalized
      let mutated := fresh.2.write fresh.1 (strList remaining)
      let sentence := normalized.getLast?.getD ""
      let r := requestLoop net from_json self.service_url suppress_exceptions sentence remaining
      (mutated, self,
       ⟨r.requested,
        r.outcome.map fun trees => empty_indices.foldl (fun acc i => pyInsert i none acc) trees⟩)

/-- A network that answers every request successfully with data `0`. -/
def netOk : String → FetchResult Nat := fun _ => .ok 0

/-- The same network written differently (for the determinism witness). -/
def netOkAlt : String → FetchResult Nat := fun url => if url = url then .ok 0 else .httpError 1

/-- A network answering HTTP 500 for the sentence `"a"` at endpoint `"S"`. -/
def net500a : String → FetchResult Nat := fun url =>
  if url = requestUrl "S" "a" then .httpError 500 else .ok 0

/-- A network answering HTTP 500 for the sentence `"b"` at endpoint `"S"`. -/
def net500b : String → FetchResult Nat := fun url =>
  if url = requestUrl "S" "b" then .httpError 500 else .ok 0

/-- A network that always fails with HTTP 500. -/
def netFail : String → FetchResult Nat := fun _ => .httpError 500

/-- C1: whenever `sentences2trees` returns (outcome is `ok`), the returned
list has exactly the length of the input batch, regardless of how many
sentences normalized to empty or failed under suppression. -/
theorem c1_output_length_eq_input_length {δ τ : Type} (self : WebParser)
    (net : String → FetchResult δ) (fj : δ → τ) (sentences : PyObj)
    (sup tok : Bool) (out : List (Option τ))
    (h : (self.sentences2trees net fj sentences sup tok).outcome = .ok out) :
    out.length = sentences.items.length := by
  cases hn : normalizeBatch tok sentences with
  | error e =>
    rw [sentences2trees_normerr self net fj sentences sup tok e hn] at h
    simp at h
  | ok ns =>
    have hlen := normalizeBatch_length hn
    cases sup with
    | true =>
      rw [sentences2trees_suppress self net fj sentences tok ns hn] at h
      dsimp only at h
      simp only [Except.ok.injEq] at h
      subst h
      simp [hlen]
    | false =>
      cases hb : firstBlankIdx ns with
      | some j =>
        rw [sentences2trees_blank self net fj sentences tok ns j hn hb] at h
        simp at h
      | none =>
        rw [sentences2trees_noblank self net fj sentences tok ns hn hb] at h
        rw [← hlen]
        exact requestLoop_ok_length net fj self.service_url (ns.getLast?.getD "") false ns out h

/-- Witness for C1 at a concrete input: batch `["hi", ""]` under
suppression returns a list of length 2. -/
theorem c1_witness :
    ((WebParser.mk "S").sentences2trees netOk (fun d => d)
        (.pyList [.pyStr "hi", .pyStr ""]) true false).outcome = .ok [some 0, none]
    ∧ ([some 0, none] : List (Option Nat)).length
        = (PyObj.pyList [.pyStr "hi", .pyStr ""]).items.length :=
  ⟨by decide,
   c1_output_length_eq_input_length (WebParser.mk "S") netOk (fun d => d)
     (.pyList [.pyStr "hi", .pyStr ""]) true false [some 0, none] (by decide)⟩

/-- C2 (code behaviour at the failing input): for batch `["a", "b"]` where
the request for `"a"` gets HTTP 500 and exceptions are not suppressed, the
raised `WebParseError` carries the sentence `"b"` — the stale value of the
`sentence` loop variable — and not the requested sentence `"a"`. -/
theorem c2_stale_sentence_in_error :
    (WebParser.mk "S").sentences2trees net500a (fun d => d)
        (.pyList [.pyStr "a", .pyStr "b"]) false false
      = ⟨["a"], .error (.webParseError "b" 500)⟩
    ∧ ("b" : String) ≠ "a" :=
  ⟨by decide, by decide⟩

/-- C3: a batch whose normalization contains a blank sentence, under
non-suppression, raises `ValueError` naming the index of the first blank
sentence, and no request at all is issued. -/
theorem c3_blank_aborts_before_any_request {δ τ : Type} (self : WebParser)
    (net : String → FetchResult δ) (fj : δ → τ) (sentences : PyObj)
    (tok : Bool) (ns : List String) (j : Nat)
    (hn : normalizeBatch tok sentences = .ok ns) (hj : firstBlankIdx ns = some j) :
    self.sentences2trees net fj sentences false tok
      = ⟨[], .error (.valueError (blankMsg j))⟩ :=
  sentences2trees_blank self net fj sentences tok ns j hn hj

/-- Witness for C3: input `["", "hello"]` raises for index 0 with no request. -/
theorem c3_witness :
    normalizeBatch false (.pyList [.pyStr "", .pyStr "hello"]) = .ok ["", "hello"]
    ∧ firstBlankIdx ["", "hello"] = some 0
    ∧ (WebParser.mk "S").sentences2trees netOk (fun d => d)
        (.pyList [.pyStr "", .pyStr "hello"]) false false
      = ⟨[], .error (.valueError (blankMsg 0))⟩ :=
  ⟨by decide, by decide,
   c3_blank_aborts_before_any_request (WebParser.mk "S") netOk (fun d => d)
     (.pyList [.pyStr "", .pyStr "hello"]) false ["", "hello"] 0 (by decide) (by decide)⟩

/-- C4: under suppression, positions whose sentence normalizes to `""` are
excluded from the requests entirely and come back as `none` at exactly
their original position; the other results are realigned to their original
positions. -/
theorem c4_empty_positions_skipped_and_realigned {δ τ : Type} (self : WebParser)
    (net : String → FetchResult δ) (fj : δ → τ) (sentences : PyObj)
    (tok : Bool) (ns : List String) (hn : normalizeBatch tok sentences = .ok ns) :
    self.sentences2trees net fj sentences true tok
      = ⟨ns.filter (fun s => !(s == "")),
         .ok (ns.map fun s =>
           if s = "" then none else soloResult net fj self.service_url s)⟩ :=
  sentences2trees_suppress self net fj sentences tok ns hn

/-- Witness for C4: input `["", "hello"]` under suppression requests only
`"hello"` and returns `[none, some 0]`. -/
theorem c4_witness :
    normalizeBatch false (.pyList [.pyStr "", .pyStr "hello"]) = .ok ["", "hello"]
    ∧ (WebParser.mk "S").sentences2trees netOk (fun d => d)
        (.pyList [.pyStr "", .pyStr "hello"]) true false
      = ⟨["hello"], .ok [none, some 0]⟩ := by
  refine ⟨by decide, ?_⟩
  rw [c4_empty_positions_skipped_and_realigned (WebParser.mk "S") netOk (fun d => d)
    (.pyList [.pyStr "", .pyStr "hello"]) false ["", "hello"] (by decide)]
  decide

/-- C5: normalization follows the `tokenised` flag: with `tokenised=True`
each sentence's tokens are joined with single spaces (so
`[["I", "like", "tea"]]` normalizes to `"I like tea"`); with
`tokenised=False` whitespace runs are collapsed by split-then-rejoin (so
`["  I   like   tea  "]` normalizes to `"I like tea"`). -/
theorem c5_normalization_rules :
    (∀ tss : List (List String),
      normalizeBatch true (.pyList (tss.map fun ts => .pyList (ts.map PyObj.pyStr)))
        = .ok (tss.map pyJoin))
    ∧ (∀ ss : List String,
      normalizeBatch false (.pyList (ss.map PyObj.pyStr))
        = .ok (ss.map fun s => pyJoin (pySplit s)))
    ∧ normalizeBatch true (.pyList [.pyList [.pyStr "I", .pyStr "like", .pyStr "tea"]])
        = .ok ["I like tea"]
    ∧ normalizeBatch false (.pyList [.pyStr "  I   like   tea  "])
        = .ok ["I like tea"] :=
  ⟨normalizeBatch_embed_tok, normalizeBatch_embed_untok, by decide, by decide⟩

/-- C6 (counterexample to the claim as stated): with `tokenised=True` a
token may itself consist of whitespace; the batch `[[" "]]` normalizes to
`" "`, which is not treated as empty — it is submitted to the network even
though it is whitespace-only and not whitespace-collapsed. -/
theorem c6_counterexample :
    ¬ (∀ s ∈ ((WebParser.mk "S").sentences2trees netFail (fun d => d)
          (.pyList [.pyList [.pyStr " "]]) true true).requested,
        s ≠ "" ∧ wsCollapsed s = true) := by
  intro h
  have h2 := h " " (by decide)
  exact absurd h2.2 (by decide)

/-- C6 (amended): every sentence submitted to the network is nonempty and
whitespace-collapsed (no leading/trailing whitespace, no run of more than
one whitespace character) — unconditionally in untokenised mode, and in
tokenised mode provided every token is nonempty and contains no whitespace
character. -/
theorem c6_submitted_sentences_collapsed {δ τ : Type} (self : WebParser)
    (net : String → FetchResult δ) (fj : δ → τ) (sentences : PyObj) (sup tok : Bool)
    (htok : tok = true → ∀ o ∈ sentences.items, ∀ t ∈ o.items,
      (PyObj.asStr t).data ≠ [] ∧ ∀ c ∈ (PyObj.asStr t).data, isPySpace c = false) :
    ∀ s ∈ (self.sentences2trees net fj sentences sup tok).requested,
      s ≠ "" ∧ wsCollapsed s = true := by
  cases hn : normalizeBatch tok sentences with
  | error e =>
    rw [sentences2trees_normerr self net fj sentences sup tok e hn]
    intro s hs
    simp at hs
  | ok ns =>
    have hshape : ∀ s ∈ ns, wsCollapsed s = true := by
      cases tok with
      | true =>
        intro s hs
        obtain ⟨o, ho, rfl⟩ := normalizeBatch_mem_tok hn s hs
        refine wsCollapsed_join_tokens _ ?_
        intro t' ht'
        rw [List.mem_map] at ht'
        obtain ⟨t, ht, rfl⟩ := ht'
        exact htok rfl o ho t ht
      | false =>
        intro s hs
        obtain ⟨s0, rfl⟩ := normalizeBatch_mem_untok hn s hs
        exact wsCollapsed_split_join s0
    cases sup with
    | true =>
      rw [sentences2trees_suppress self net fj sentences tok ns hn]
      intro s hs
      dsimp only at hs
      rw [List.mem_filter] at hs
      refine ⟨?_, hshape s hs.1⟩
      simpa using hs.2
    | false =>
      cases hb : firstBlankIdx ns with
      | some j =>
        rw [sentences2trees_blank self net fj sentences tok ns j hn hb]
        intro s hs
        simp at hs
      | none =>
        rw [sentences2trees_noblank self net fj sentences tok ns hn hb]
        intro s hs
        have hmem := requestLoop_requested_mem net fj self.service_url
          (ns.getLast?.getD "") false ns s hs
        exact ⟨firstBlankIdx_none.mp hb s hmem, hshape s hmem⟩

/-- Witness for the amended C6 at a concrete tokenised input with
whitespace-free tokens. -/
theorem c6_amended_witness :
    (∀ o ∈ (PyObj.pyList [.pyList [.pyStr "I", .pyStr "like"]]).items, ∀ t ∈ o.items,
      (PyObj.asStr t).data ≠ [] ∧ ∀ c ∈ (PyObj.asStr t).data, isPySpace c = false)
    ∧ ("I like" ≠ "" ∧ wsCollapsed "I like" = true) :=
  ⟨by decide,
   c6_submitted_sentences_collapsed (WebParser.mk "S") netOk (fun d => d)
     (.pyList [.pyList [.pyStr "I", .pyStr "like"]]) true true
     (fun _ => by decide) "I like" (by decide)⟩

/-- C7: a batch whose shape does not match the `tokenised` flag raises the
corresponding `ValueError` with no request issued, for either value of
`suppress_exceptions`. -/
theorem c7_type_mismatch_always_aborts {δ τ : Type} (self : WebParser)
    (net : String → FetchResult δ) (fj : δ → τ) (sentences : PyObj) : ∀ sup : Bool,
    (tokenised_batch_type_check sentences = false →
      self.sentences2trees net fj sentences sup true
        = ⟨[], .error (.valueError typeErrMsgTok)⟩)
    ∧ (untokenised_batch_type_check sentences = false →
      self.sentences2trees net fj sentences sup false
        = ⟨[], .error (.valueError typeErrMsgUntok)⟩) := by
  intro sup
  constructor
  · intro hc
    refine sentences2trees_normerr self net fj sentences sup true _ ?_
    simp [normalizeBatch, hc]
  · intro hc
    refine sentences2trees_normerr self net fj sentences sup false _ ?_
    simp [normalizeBatch, hc]

/-- Witness for C7: a non-list input fails both checks, in both suppression
modes, with no request. -/
theorem c7_witness :
    tokenised_batch_type_check .pyOther = false
    ∧ untokenised_batch_type_check .pyOther = false
    ∧ (WebParser.mk "S").sentences2trees netOk (fun d => d) .pyOther true true
        = ⟨[], .error (.valueError typeErrMsgTok)⟩
    ∧ (WebParser.mk "S").sentences2trees netOk (fun d => d) .pyOther false false
        = ⟨[], .error (.valueError typeErrMsgUntok)⟩ :=
  ⟨rfl, rfl,
   (c7_type_mismatch_always_aborts (WebParser.mk "S") netOk (fun d => d) .pyOther true).1 rfl,
   (c7_type_mismatch_always_aborts (WebParser.mk "S") netOk (fun d => d) .pyOther false).2 rfl⟩

/-- C8: per-request failure policy.  Under suppression every failing
position degrades to `none` and processing continues (the whole batch
still returns, with every sentence's result computed independently); under
non-suppression the first failing request aborts the call with an error —
no partial result list is returned, and no request after the failing one
is issued. -/
theorem c8_failure_policy {δ τ : Type} (self : WebParser)
    (net : String → FetchResult δ) (fj : δ → τ) (sentences : PyObj)
    (tok : Bool) (ns : List String) (hn : normalizeBatch tok sentences = .ok ns) :
    ((self.sentences2trees net fj sentences true tok).outcome
        = .ok (ns.map fun s =>
            if s = "" then none else soloResult net fj self.service_url s)
      ∧ ∀ s, fetchOk net self.service_url s = false →
          soloResult net fj self.service_url s = none)
    ∧ (firstBlankIdx ns = none →
        ∀ pre f rest, ns = pre ++ f :: rest →
        (∀ s ∈ pre, fetchOk net self.service_url s = true) →
        fetchOk net self.service_url f = false →
        self.sentences2trees net fj sentences false tok
          = ⟨pre ++ [f],
             .error (failureError net self.service_url (ns.getLast?.getD "") f)⟩) := by
  constructor
  · constructor
    · rw [sentences2trees_suppress self net fj sentences tok ns hn]
    · intro s hs
      cases hnet : net (requestUrl self.service_url s) with
      | ok d => simp [fetchOk, hnet] at hs
      | httpError c => simp [soloResult, hnet]
      | exn m => simp [soloResult, hnet]
  · intro hb pre f rest hsplit hpre hf
    rw [sentences2trees_noblank self net fj sentences tok ns hn hb, hsplit]
    exact requestLoop_first_fail net fj self.service_url
      ((pre ++ f :: rest).getLast?.getD "") pre f rest hpre hf

/-- Witness for C8: batch `["a", "b", "c"]` with the request for `"b"`
failing: under suppression the result is `[some 0, none, some 0]`; under
non-suppression the call aborts after requesting `["a", "b"]`. -/
theorem c8_witness :
    normalizeBatch false (.pyList [.pyStr "a", .pyStr "b", .pyStr "c"]) = .ok ["a", "b", "c"]
    ∧ ((WebParser.mk "S").sentences2trees net500b (fun d => d)
        (.pyList [.pyStr "a", .pyStr "b", .pyStr "c"]) true false).outcome
        = .ok [some 0, none, some 0]
    ∧ (WebParser.mk "S").sentences2trees net500b (fun d => d)
        (.pyList [.pyStr "a", .pyStr "b", .pyStr "c"]) false false
        = ⟨["a", "b"], .error (.webParseError "c" 500)⟩ := by
  refine ⟨by decide, ?_, ?_⟩
  · rw [(c8_failure_policy (WebParser.mk "S") net500b (fun d => d)
      (.pyList [.pyStr "a", .pyStr "b", .pyStr "c"]) false ["a", "b", "c"] (by decide)).1.1]
    decide
  · rw [(c8_failure_policy (WebParser.mk "S") net500b (fun d => d)
      (.pyList [.pyStr "a", .pyStr "b", .pyStr "c"]) false ["a", "b", "c"] (by decide)).2
      (by decide) ["a"] "b" ["c"] rfl (by decide) (by decide)]
    decide

/-- C9: `sentences2trees` is deterministic: two calls with identical
arguments against networks that answer every URL identically return
identical results. -/
theorem c9_deterministic {δ τ : Type} (self : WebParser)
    (net1 net2 : String → FetchResult δ) (fj : δ → τ) (sentences : PyObj)
    (sup tok : Bool) (h : ∀ url, net1 url = net2 url) :
    self.sentences2trees net1 fj sentences sup tok
      = self.sentences2trees net2 fj sentences sup tok := by
  have hnn : net1 = net2 := funext h
  rw [hnn]

/-- Witness for C9 at two extensionally equal concrete networks. -/
theorem c9_witness :
    (WebParser.mk "S").sentences2trees netOk (fun d => d) (.pyList [.pyStr "hi"]) false false
      = (WebParser.mk "S").sentences2trees netOkAlt (fun d => d) (.pyList [.pyStr "hi"]) false false :=
  c9_deterministic (WebParser.mk "S") netOk netOkAlt (fun d => d) (.pyList [.pyStr "hi"])
    false false (fun url => by simp [netOk, netOkAlt])

/-- C10: the call never mutates the caller's batch object nor the parser's
configuration: both list comprehensions allocate fresh lists, the `del`
loop mutates only the fresh list, and `self` is returned unchanged. -/
theorem c10_no_mutation_of_caller {δ τ : Type} (self : WebParser)
    (net : String → FetchResult δ) (fj : δ → τ) (st : PyHeap) (sentencesAddr : Nat)
    (sup tok : Bool) (h : sentencesAddr < st.next) :
    ((self.sentences2treesSt net fj st sentencesAddr sup tok).1).heap sentencesAddr
        = st.heap sentencesAddr
    ∧ (self.sentences2treesSt net fj st sentencesAddr sup tok).2.1 = self := by
  unfold WebParser.sentences2treesSt
  dsimp only
  cases hn : normalizeBatch tok (st.heap sentencesAddr) with
  | error e => exact ⟨rfl, rfl⟩
  | ok ns =>
    dsimp only
    cases tok with
    | true =>
      simp only [if_true]
      cases hec : emptyCheck sup 0 ns with
      | error e =>
        dsimp only
        exact ⟨PyHeap.alloc_heap_lt st _ sentencesAddr h, rfl⟩
      | ok idxs =>
        dsimp only
        refine ⟨?_, rfl⟩
        have h2 : sentencesAddr ≠ (st.alloc (strList ns)).1 := by
          simp only [PyHeap.alloc]
          omega
        rw [PyHeap.write_heap_ne _ _ _ _ h2, PyHeap.alloc_heap_lt st _ _ h]
    | false =>
      simp only [Bool.false_eq_true, if_false, ite_false]
      have h1 : sentencesAddr
          < ((st.alloc (strList ((st.heap sentencesAddr).items.map PyObj.asStr))).2).next := by
        simp only [PyHeap.alloc]
        omega
      cases hec : emptyCheck sup 0 ns with
      | error e =>
        dsimp only
        refine ⟨?_, rfl⟩
        rw [PyHeap.alloc_heap_lt _ _ sentencesAddr h1,
          PyHeap.alloc_heap_lt st _ sentencesAddr h]
      | ok idxs =>
        dsimp only
        refine ⟨?_, rfl⟩
        have h2 : sentencesAddr
            ≠ (((st.alloc (strList ((st.heap sentencesAddr).items.map PyObj.asStr))).2).alloc
                (strList ns)).1 := by
          simp only [PyHeap.alloc]
          omega
        rw [PyHeap.write_heap_ne _ _ _ _ h2,
          PyHeap.alloc_heap_lt _ _ sentencesAddr h1,
          PyHeap.alloc_heap_lt st _ sentencesAddr h]

/-- A one-object heap for the C10 witness. -/
def heap0 : PyHeap := ⟨fun _ => strList ["hi"], 1⟩

/-- Witness for C10 at a concrete heap: the caller's list at address 0 is
unchanged and the parser is returned as-is. -/
theorem c10_witness :
    0 < heap0.next
    ∧ (((WebParser.mk "S").sentences2treesSt netOk (fun d => d) heap0 0 true false).1).heap 0
        = heap0.heap 0
    ∧ ((WebParser.mk "S").sentences2treesSt netOk (fun d => d) heap0 0 true false).2.1
        = WebParser.mk "S" :=
  ⟨by decide,
   (c10_no_mutation_of_caller (WebParser.mk "S") netOk (fun d => d) heap0 0 true false
     (by decide)).1,
   (c10_no_mutation_of_caller (WebParser.mk "S") netOk (fun d => d) heap0 0 true false
     (by decide)).2⟩
